import Mathlib

/-!
Verification of the DonationSync pipeline (src/process_incoming_donations.py).

The pipeline reads donation CSV files, parses the Date column with the
pattern M/d/yyyy, aggregates rows per DonorID (first Name, sum Amount,
max Date), merges the aggregate with the persisted DonorLifetimeGiving
table (union existing-then-new, then re-aggregate with first Name,
sum LifetimeAmount, max LastDonation), and overwrites the store.

The embedding below models DataFrames as lists of rows in a fixed order,
Spark's groupBy/first/sum/max under deterministic in-order semantics,
calendar dates as the chronologically ordered code y*10000 + m*100 + d
(Option, since to_date yields SQL NULL on non-conforming text), and the
parquet store as an explicit Option-valued state.

Amounts appear in two models. The structural, name and date properties —
which do not depend on the numeric type — are stated over rows whose
Amount is an integer (Row). The numeric properties are stated over the
faithful model of the code's arithmetic (DRow): inferSchema types a
fractional CSV Amount such as "0.1" as Double, so sums are IEEE-754
binary64 additions; Fp below implements binary64 values and their
round-to-nearest-ties-to-even addition exactly, with integers.
-/

namespace DonationSync

/-- An aggregate row of the DonorLifetimeGiving table, and also the shape of
a parsed incoming donation row: DonorID, Name, Amount (LifetimeAmount) and
parsed Date (LastDonation); `none` is Spark's SQL NULL date. The Amount is
carried as an integer: an exact-arithmetic idealization used only for the
structural, name and date properties, which do not depend on the numeric
type. The numeric properties use DRow/Fp below, the faithful model of the
Double arithmetic inferSchema gives fractional amounts. -/
structure Row where
  donorId : String
  name : String
  amount : Int
  date : Option Nat
deriving DecidableEq

/-- A raw CSV data row as loaded with header and inferSchema: the Date
column is still text. The Amount is carried as an integer (see Row; the
binary64 model DRow/Fp below covers inferSchema's Double typing of
fractional amounts). -/
structure RawRow where
  donorId : String
  name : String
  amount : Int
  date : String
deriving DecidableEq

/-- A CSV file: its header (column names, in file order) and its rows. -/
structure CsvFile where
  header : List String
  rows : List RawRow
deriving DecidableEq

/-- The errors a run can raise: FileNotFoundError from _read_csv_files when
no csv file matches, and Spark's AnalysisException from union when the
column counts of two files differ. -/
inductive PipeError where
  | fileNotFound
  | analysisException
deriving DecidableEq

/-- Value of a decimal digit character, none on a non-digit. -/
def digitVal (c : Char) : Option Nat :=
  if '0' ≤ c ∧ c ≤ '9' then some (c.toNat - Char.toNat '0') else none

def digitsToNatAux : List Char → Nat → Option Nat
  | [], acc => some acc
  | c :: cs, acc =>
    match digitVal c with
    | some v => digitsToNatAux cs (acc * 10 + v)
    | none => none

/-- A nonempty all-digit character list read as a number, none otherwise. -/
def digitsToNat : List Char → Option Nat
  | [] => none
  | cs => digitsToNatAux cs 0

/-- Split a character list at every slash. -/
def splitSlash : List Char → List (List Char)
  | [] => [[]]
  | c :: cs =>
    if c = '/' then [] :: splitSlash cs
    else
      match splitSlash cs with
      | [] => [[c]]
      | p :: ps => (c :: p) :: ps

def isLeapYear (y : Nat) : Bool :=
  decide ((y % 4 = 0 ∧ ¬ y % 100 = 0) ∨ y % 400 = 0)

def daysInMonth (y m : Nat) : Nat :=
  if m = 2 then (if isLeapYear y then 29 else 28)
  else if m = 4 ∨ m = 6 ∨ m = 9 ∨ m = 11 then 30
  else 31

/-- Spark's to_date(col, "M/d/yyyy") as used at process_files line 150:
month and day take 1 or 2 digits, the year exactly 4, separated by slashes,
and the triple must be a real calendar date. A parsed date is encoded as
the chronologically ordered code y*10000 + m*100 + d. Any non-conforming
text yields none (SQL NULL): to_date does not raise. -/
def parseDateMdy (s : String) : Option Nat :=
  match splitSlash s.toList with
  | [ms, ds, ys] =>
    match digitsToNat ms, digitsToNat ds, digitsToNat ys with
    | some m, some d, some y =>
      if ms.length ≤ 2 ∧ ds.length ≤ 2 ∧ ys.length = 4 ∧
          1 ≤ m ∧ m ≤ 12 ∧ 1 ≤ d ∧ d ≤ daysInMonth y m
      then some (y * 10000 + m * 100 + d)
      else none
    | _, _, _ => none
  | _ => none

/-- withColumn("Date", to_date(col("Date"), "M/d/yyyy")) applied to a row. -/
def parseRow (r : RawRow) : Row :=
  ⟨r.donorId, r.name, r.amount, parseDateMdy r.date⟩

/-- The DonorID column of a row list. -/
def keys (rows : List Row) : List String :=
  rows.map (fun r => r.donorId)

/-- The first row carrying the given DonorID, if any. -/
def findRow (d : String) (rows : List Row) : Option Row :=
  rows.find? (fun r => r.donorId == d)

/-- The donor appears in the row list. -/
def hasKey (d : String) (rows : List Row) : Prop :=
  d ∈ keys rows

/-- All rows of one donor's group, in original order. -/
def rowsFor (d : String) (rows : List Row) : List Row :=
  rows.filter (fun r => r.donorId == d)

def emptyName : String := ""

/-- first("Name") of a donor's group: the Name of the group's first row. -/
def nameAt (d : String) (rows : List Row) : String :=
  ((rowsFor d rows).map (fun r => r.name)).headD emptyName

/-- sum("Amount") of a donor's group, over the exact integer idealization
of amounts; dAmountAt below is the binary64 sum the code computes when
inferSchema types the Amount column as Double. -/
def amountAt (d : String) (rows : List Row) : Int :=
  ((rowsFor d rows).map (fun r => r.amount)).sum

/-- NULL-ignoring maximum, the way Spark's max aggregate treats NULLs. -/
def omax : Option Nat → Option Nat → Option Nat
  | none, b => b
  | some a, none => some a
  | some a, some b => some (max a b)

/-- max("Date") of a donor's group: NULL dates are ignored. -/
def dateAt (d : String) (rows : List Row) : Option Nat :=
  (rowsFor d rows).foldr (fun r acc => omax r.date acc) none

/-- The distinct values of a list in order of first occurrence: the
deterministic order of groupBy keys for an in-order row list. -/
def firstOccs (l : List String) : List String :=
  l.foldl (fun acc x => if x ∈ acc then acc else acc ++ [x]) []

/-- groupBy("DonorID").agg(first(Name), sum(Amount), max(Date)) under
deterministic in-order semantics: one output row per distinct DonorID,
Name from the group's first row, Amount summed, Date maxed with NULLs
ignored. This is _aggregate_donations, and also the re-aggregation step
of _merge_data (lines 122-127), whose aggregate expressions are the same. -/
def groupAgg (rows : List Row) : List Row :=
  (firstOccs (keys rows)).map (fun d => ⟨d, nameAt d rows, amountAt d rows, dateAt d rows⟩)

/-- _merge_data: with no existing table the new aggregate is returned
unchanged; otherwise existing.union(new) — existing rows first — is
re-aggregated by DonorID. -/
def mergeData (newAgg : List Row) (existing : Option (List Row)) : List Row :=
  match existing with
  | none => newAgg
  | some ex => groupAgg (ex ++ newAgg)

/-- DataFrame.union as used in _read_csv_files: positional, keeps the left
schema, raises AnalysisException exactly when the column counts differ;
column names and order are not compared. -/
def sparkUnion (a b : CsvFile) : Except PipeError CsvFile :=
  if a.header.length = b.header.length then Except.ok ⟨a.header, a.rows ++ b.rows⟩
  else Except.error PipeError.analysisException

/-- _read_csv_files: FileNotFoundError when the Incoming directory has no
csv file, otherwise reduce(lambda a b: a.union(b)) over the files read. -/
def readCsvFiles (files : List CsvFile) : Except PipeError CsvFile :=
  match files with
  | [] => Except.error PipeError.fileNotFound
  | f :: fs => fs.foldl (fun acc g => acc.bind (fun c => sparkUnion c g)) (Except.ok f)

/-- _read_existing_table on the store state: none when data.parquet does
not exist, otherwise the stored table. -/
def readExistingTable (store : Option (List Row)) : Option (List Row) :=
  store

/-- _save_data on the store state: the snapshot replaces the store contents
wholesale. -/
def saveData (t : List Row) (_store : Option (List Row)) : Option (List Row) :=
  some t

/-- process_files, as a function of the input files and the store state:
read and union the CSV files, parse the Date column, aggregate, read the
existing table, merge — returning the snapshot that _save_data then
writes, or the error that aborted the run. -/
def processFiles (files : List CsvFile) (store : Option (List Row)) : Except PipeError (List Row) :=
  (readCsvFiles files).map
    (fun c => mergeData (groupAgg (c.rows.map parseRow)) (readExistingTable store))

/-- The store state after a run: the merged snapshot is saved on success;
on error the run aborts before _save_data and the store is unchanged. -/
def runStore (files : List CsvFile) (store : Option (List Row)) : Option (List Row) :=
  match processFiles files store with
  | Except.ok t => saveData t store
  | Except.error _ => store

/-- True when a pipeline stage returned a result rather than raising. -/
def isOk {α : Type} (r : Except PipeError α) : Bool :=
  match r with
  | Except.ok _ => true
  | Except.error _ => false

def dD1 : String := r"D1"

def dD2 : String := r"D2"

/-- An IEEE-754 binary64 (Double) value m * 2^e, mantissa at most 53 bits:
the type inferSchema assigns a fractional CSV Amount and the arithmetic
spark_sum then performs. The model covers finite normal-range values (the
magnitudes of monetary data); overflow and subnormals do not arise there. -/
structure Fp where
  m : Int
  e : Int
deriving DecidableEq

def bitLenAux : Nat → Nat → Nat
  | 0, _ => 0
  | fuel + 1, m => if m = 0 then 0 else bitLenAux fuel (m / 2) + 1

/-- Bit length of a natural number (fuel covers every value used here). -/
def bitLen (m : Nat) : Nat := bitLenAux 400 m

/-- Round a nonnegative mantissa at exponent e to at most 53 bits,
round-to-nearest with ties to even, as binary64 requires. -/
def fpRound (m : Nat) (e : Int) : Fp :=
  let L := bitLen m
  if L ≤ 53 then ⟨(m : Int), e⟩
  else
    let t := L - 53
    let q := m / 2 ^ t
    let r := m % 2 ^ t
    let half := 2 ^ (t - 1)
    let q' := if half < r ∨ (r = half ∧ q % 2 = 1) then q + 1 else q
    if q' = 2 ^ 53 then ⟨(2 ^ 52 : Int), e + t + 1⟩ else ⟨(q' : Int), e + t⟩

/-- binary64 addition: align the exponents, add exactly, round the result
to 53 bits (ties to even) — the double arithmetic of spark_sum. -/
def dadd (a b : Fp) : Fp :=
  let e0 := min a.e b.e
  let s := a.m * 2 ^ ((a.e - e0).toNat) + b.m * 2 ^ ((b.e - e0).toNat)
  if s < 0 then
    let f := fpRound s.natAbs e0
    ⟨-f.m, f.e⟩
  else fpRound s.natAbs e0

/-- The binary64 double nearest to the decimal n / 10^k (ties to even):
the value inferSchema's Double typing stores for such a CSV Amount text.
The extra sticky remainder r makes the single rounding exact. -/
def ofDecimal (n k : Nat) : Fp :=
  if n = 0 then ⟨0, 0⟩
  else
    let d := 10 ^ k
    let q := n * 2 ^ 200 / d
    let r := n * 2 ^ 200 % d
    let L := bitLen q
    if L ≤ 53 then ⟨(q : Int), -200⟩
    else
      let t := L - 53
      let qq := q / 2 ^ t
      let rr := q % 2 ^ t
      let half := 2 ^ (t - 1)
      let up := half < rr ∨ (rr = half ∧ 0 < r) ∨ (rr = half ∧ r = 0 ∧ qq % 2 = 1)
      let q' := if up then qq + 1 else qq
      if q' = 2 ^ 53 then ⟨(2 ^ 52 : Int), (t : Int) + 1 - 200⟩
      else ⟨(q' : Int), (t : Int) - 200⟩

/-- Whether the double x denotes exactly the decimal value n / 10^k. -/
def fpEqDecimal (x : Fp) (n : Int) (k : Nat) : Bool :=
  if 0 ≤ x.e then x.m * 2 ^ (x.e.toNat) * 10 ^ k == n
  else x.m * 10 ^ k == n * 2 ^ ((-x.e).toNat)

/-- Whether the two doubles denote the same real value. -/
def fpValEq (x y : Fp) : Bool :=
  x.m * 2 ^ ((x.e - min x.e y.e).toNat) == y.m * 2 ^ ((y.e - min x.e y.e).toNat)

/-- A row whose Amount column is a binary64 double: the faithful model of
the pipeline's rows when inferSchema types Amount as Double. -/
structure DRow where
  donorId : String
  name : String
  amount : Fp
  date : Option Nat
deriving DecidableEq

/-- The DonorID column of a double-amount row list. -/
def dKeys (rows : List DRow) : List String :=
  rows.map (fun r => r.donorId)

/-- The first double-amount row carrying the given DonorID, if any. -/
def dFindRow (d : String) (rows : List DRow) : Option DRow :=
  rows.find? (fun r => r.donorId == d)

/-- All double-amount rows of one donor's group, in original order. -/
def dRowsFor (d : String) (rows : List DRow) : List DRow :=
  rows.filter (fun r => r.donorId == d)

/-- first("Name") of a donor's group of double-amount rows. -/
def dNameAt (d : String) (rows : List DRow) : String :=
  ((dRowsFor d rows).map (fun r => r.name)).headD emptyName

/-- spark_sum over a group in row order: binary64 additions folded left,
each partial sum rounded — the order-dependent double sum of the code. -/
def dSum : List Fp → Fp
  | [] => ⟨0, 0⟩
  | x :: xs => xs.foldl dadd x

/-- sum("Amount") of a donor's group in the double model. -/
def dAmountAt (d : String) (rows : List DRow) : Fp :=
  dSum ((dRowsFor d rows).map (fun r => r.amount))

/-- max("Date") of a donor's group of double-amount rows, NULLs ignored. -/
def dDateAt (d : String) (rows : List DRow) : Option Nat :=
  (dRowsFor d rows).foldr (fun r acc => omax r.date acc) none

/-- groupBy("DonorID").agg(first(Name), sum(Amount), max(Date)) over
double-amount rows: the same _aggregate_donations / _merge_data
re-aggregation, with the sum in binary64. -/
def dGroupAgg (rows : List DRow) : List DRow :=
  (firstOccs (dKeys rows)).map (fun d => ⟨d, dNameAt d rows, dAmountAt d rows, dDateAt d rows⟩)

/-- _merge_data over double-amount rows: None → new data unchanged;
otherwise existing.union(new) — existing first — re-aggregated. -/
def dMergeData (newAgg : List DRow) (existing : Option (List DRow)) : List DRow :=
  match existing with
  | none => newAgg
  | some ex => dGroupAgg (ex ++ newAgg)

set_option maxRecDepth 8000

theorem mem_foldl_occs (l : List String) (acc : List String) (d : String) :
    d ∈ l.foldl (fun a x => if x ∈ a then a else a ++ [x]) acc ↔ d ∈ acc ∨ d ∈ l := by
  induction l generalizing acc with
  | nil => simp
  | cons x xs ih =>
    rw [List.foldl_cons, ih]
    by_cases hx : x ∈ acc
    · rw [if_pos hx, List.mem_cons]
      constructor
      · rintro (h | h)
        · exact Or.inl h
        · exact Or.inr (Or.inr h)
      · rintro (h | h | h)
        · exact Or.inl h
        · exact Or.inl (h ▸ hx)
        · exact Or.inr h
    · rw [if_neg hx, List.mem_append, List.mem_singleton, List.mem_cons, or_assoc]

theorem mem_firstOccs (l : List String) (d : String) : d ∈ firstOccs l ↔ d ∈ l := by
  rw [firstOccs, mem_foldl_occs]
  simp

theorem find?_beq_self (l : List String) (d : String) (h : d ∈ l) :
    l.find? (fun k => k == d) = some d := by
  induction l with
  | nil => simp at h
  | cons x xs ih =>
    by_cases hx : x = d
    · rw [List.find?_cons_of_pos _ (by simp [hx])]
      rw [hx]
    · rw [List.find?_cons_of_neg _ (by simp [hx])]
      exact ih (List.mem_of_ne_of_mem (fun hdx => hx hdx.symm) h)

theorem find?_map_groupRow (rows : List Row) (d : String) (ks : List String) (h : d ∈ ks) :
    (ks.map (fun k => (⟨k, nameAt k rows, amountAt k rows, dateAt k rows⟩ : Row))).find?
        (fun r => r.donorId == d) =
      some ⟨d, nameAt d rows, amountAt d rows, dateAt d rows⟩ := by
  induction ks with
  | nil => simp at h
  | cons x xs ih =>
    rw [List.map_cons]
    by_cases hx : x = d
    · rw [hx, List.find?_cons_of_pos _ (by simp)]
    · rw [List.find?_cons_of_neg _ (by simp [hx])]
      exact ih (List.mem_of_ne_of_mem (fun hdx => hx hdx.symm) h)

theorem findRow_groupAgg_of_mem (rows : List Row) (d : String) (h : d ∈ keys rows) :
    findRow d (groupAgg rows) = some ⟨d, nameAt d rows, amountAt d rows, dateAt d rows⟩ := by
  rw [findRow, groupAgg]
  exact find?_map_groupRow rows d (firstOccs (keys rows)) ((mem_firstOccs _ _).mpr h)

theorem findRow_groupAgg_of_not_mem (rows : List Row) (d : String) (h : ¬ d ∈ keys rows) :
    findRow d (groupAgg rows) = none := by
  rw [findRow, groupAgg, List.find?_eq_none]
  intro x hx
  rcases List.mem_map.mp hx with ⟨k, hk, rfl⟩
  intro hbeq
  exact h ((eq_of_beq hbeq) ▸ (mem_firstOccs _ _).mp hk)

theorem keys_groupAgg (rows : List Row) : keys (groupAgg rows) = firstOccs (keys rows) := by
  rw [keys, groupAgg, List.map_map]
  exact List.map_id _

theorem findRow_none_iff (l : List Row) (d : String) :
    findRow d l = none ↔ ¬ d ∈ keys l := by
  rw [findRow, List.find?_eq_none]
  constructor
  · intro h hmem
    rcases List.mem_map.mp hmem with ⟨r, hr, hrd⟩
    exact h r hr (by simp [hrd])
  · intro h r hr hbeq
    exact h (List.mem_map.mpr ⟨r, hr, eq_of_beq hbeq⟩)

theorem mem_keys_of_findRow (l : List Row) (d : String) (e : Row)
    (hf : findRow d l = some e) : d ∈ keys l := by
  by_contra h
  have hnone := (findRow_none_iff l d).mpr h
  rw [hnone] at hf
  exact Option.noConfusion hf

theorem donorId_of_findRow (l : List Row) (d : String) (e : Row)
    (hf : findRow d l = some e) : e.donorId = d := by
  rw [findRow] at hf
  have hp := List.find?_some (p := fun r : Row => r.donorId == d) hf
  exact eq_of_beq hp

theorem rowsFor_nil_of_not_mem (l : List Row) (d : String) (h : ¬ d ∈ keys l) :
    rowsFor d l = [] := by
  rw [rowsFor, List.filter_eq_nil_iff]
  intro r hr hbeq
  exact h (List.mem_map.mpr ⟨r, hr, eq_of_beq hbeq⟩)

theorem rowsFor_eq_single (l : List Row) (d : String) (e : Row)
    (hn : (keys l).Nodup) (hf : findRow d l = some e) : rowsFor d l = [e] := by
  induction l with
  | nil =>
    rw [findRow, List.find?_nil] at hf
    exact Option.noConfusion hf
  | cons r rs ih =>
    rw [keys, List.map_cons, List.nodup_cons] at hn
    by_cases hr : (r.donorId == d) = true
    · have he : r = e := by
        rw [findRow, List.find?_cons_of_pos (p := fun x : Row => x.donorId == d) _ hr] at hf
        exact Option.some.inj hf
      subst he
      rw [rowsFor, List.filter_cons_of_pos (p := fun x : Row => x.donorId == d) hr]
      have hnil : rowsFor d rs = [] := by
        apply rowsFor_nil_of_not_mem
        intro hmem
        exact hn.1 ((eq_of_beq hr).symm ▸ hmem)
      rw [show List.filter (fun x => x.donorId == d) rs = rowsFor d rs from rfl, hnil]
    · rw [rowsFor, List.filter_cons_of_neg (p := fun x : Row => x.donorId == d) hr]
      rw [findRow, List.find?_cons_of_neg (p := fun x : Row => x.donorId == d) _ hr] at hf
      exact ih hn.2 hf

theorem merge_fields_both (ex nw : List Row) (d : String) (e n : Row)
    (hex : (keys ex).Nodup) (hnw : (keys nw).Nodup)
    (he : findRow d ex = some e) (hn : findRow d nw = some n) :
    findRow d (mergeData nw (some ex)) =
      some ⟨d, e.name, e.amount + n.amount, omax e.date n.date⟩ := by
  have hmem : d ∈ keys (ex ++ nw) := by
    rw [keys, List.map_append, List.mem_append]
    exact Or.inl (mem_keys_of_findRow ex d e he)
  have happ : rowsFor d (ex ++ nw) = [e, n] := by
    rw [rowsFor, List.filter_append,
      show List.filter (fun x => x.donorId == d) ex = rowsFor d ex from rfl,
      show List.filter (fun x => x.donorId == d) nw = rowsFor d nw from rfl,
      rowsFor_eq_single ex d e hex he, rowsFor_eq_single nw d n hnw hn]
    rfl
  rw [show mergeData nw (some ex) = groupAgg (ex ++ nw) from rfl,
    findRow_groupAgg_of_mem _ _ hmem]
  have h1 : nameAt d (ex ++ nw) = e.name := by
    rw [nameAt, happ]
    rfl
  have h2 : amountAt d (ex ++ nw) = e.amount + n.amount := by
    rw [amountAt, happ]
    simp
  have h3 : dateAt d (ex ++ nw) = omax e.date n.date := by
    rw [dateAt, happ]
    simp only [List.foldr_cons, List.foldr_nil]
    cases e.date <;> cases n.date <;> simp [omax]
  rw [h1, h2, h3]

theorem merge_fields_left_only (ex nw : List Row) (d : String) (e : Row)
    (hex : (keys ex).Nodup) (he : findRow d ex = some e) (hn : findRow d nw = none) :
    findRow d (mergeData nw (some ex)) = some e := by
  have hmem : d ∈ keys (ex ++ nw) := by
    rw [keys, List.map_append, List.mem_append]
    exact Or.inl (mem_keys_of_findRow ex d e he)
  have happ : rowsFor d (ex ++ nw) = [e] := by
    rw [rowsFor, List.filter_append,
      show List.filter (fun x => x.donorId == d) ex = rowsFor d ex from rfl,
      show List.filter (fun x => x.donorId == d) nw = rowsFor d nw from rfl,
      rowsFor_eq_single ex d e hex he,
      rowsFor_nil_of_not_mem nw d ((findRow_none_iff nw d).mp hn)]
    rfl
  rw [show mergeData nw (some ex) = groupAgg (ex ++ nw) from rfl,
    findRow_groupAgg_of_mem _ _ hmem]
  have h1 : nameAt d (ex ++ nw) = e.name := by
    rw [nameAt, happ]
    rfl
  have h2 : amountAt d (ex ++ nw) = e.amount := by
    rw [amountAt, happ]
    simp
  have h3 : dateAt d (ex ++ nw) = e.date := by
    rw [dateAt, happ]
    simp only [List.foldr_cons, List.foldr_nil]
    cases e.date <;> simp [omax]
  rw [h1, h2, h3, ← donorId_of_findRow ex d e he]

theorem merge_fields_right_only (ex nw : List Row) (d : String) (n : Row)
    (hnw : (keys nw).Nodup) (he : findRow d ex = none) (hn : findRow d nw = some n) :
    findRow d (mergeData nw (some ex)) = some n := by
  have hmem : d ∈ keys (ex ++ nw) := by
    rw [keys, List.map_append, List.mem_append]
    exact Or.inr (mem_keys_of_findRow nw d n hn)
  have happ : rowsFor d (ex ++ nw) = [n] := by
    rw [rowsFor, List.filter_append,
      show List.filter (fun x => x.donorId == d) ex = rowsFor d ex from rfl,
      show List.filter (fun x => x.donorId == d) nw = rowsFor d nw from rfl,
      rowsFor_eq_single nw d n hnw hn,
      rowsFor_nil_of_not_mem ex d ((findRow_none_iff ex d).mp he)]
    rfl
  rw [show mergeData nw (some ex) = groupAgg (ex ++ nw) from rfl,
    findRow_groupAgg_of_mem _ _ hmem]
  have h1 : nameAt d (ex ++ nw) = n.name := by
    rw [nameAt, happ]
    rfl
  have h2 : amountAt d (ex ++ nw) = n.amount := by
    rw [amountAt, happ]
    simp
  have h3 : dateAt d (ex ++ nw) = n.date := by
    rw [dateAt, happ]
    simp only [List.foldr_cons, List.foldr_nil]
    cases n.date <;> simp [omax]
  rw [h1, h2, h3, ← donorId_of_findRow nw d n hn]

theorem hasKey_merge (ex nw : List Row) (d : String) :
    hasKey d (mergeData nw (some ex)) ↔ hasKey d ex ∨ hasKey d nw := by
  rw [hasKey, show mergeData nw (some ex) = groupAgg (ex ++ nw) from rfl,
    keys_groupAgg, mem_firstOccs, keys, List.map_append, List.mem_append]
  exact Iff.rfl

theorem omax_left_comm (a b c : Option Nat) :
    omax a (omax b c) = omax b (omax a c) := by
  cases a <;> cases b <;> cases c <;> simp [omax, max_left_comm, max_comm]

theorem dFoldr_omax_perm (rows rows' : List DRow) (hp : rows.Perm rows') (b : Option Nat) :
    rows.foldr (fun r acc => omax r.date acc) b =
      rows'.foldr (fun r acc => omax r.date acc) b := by
  induction hp generalizing b with
  | nil => rfl
  | cons x _ ih => simp only [List.foldr_cons]; rw [ih]
  | swap x y l => simp only [List.foldr_cons]; rw [omax_left_comm]
  | trans _ _ ih1 ih2 => rw [ih1, ih2]

theorem dDateAt_perm (rows rows' : List DRow) (hp : rows.Perm rows') (d : String) :
    dDateAt d rows = dDateAt d rows' := by
  rw [dDateAt, dDateAt]
  exact dFoldr_omax_perm _ _ (hp.filter (fun r => r.donorId == d)) none

theorem dFind?_map_groupRow (rows : List DRow) (d : String) (ks : List String) (h : d ∈ ks) :
    (ks.map (fun k => (⟨k, dNameAt k rows, dAmountAt k rows, dDateAt k rows⟩ : DRow))).find?
        (fun r => r.donorId == d) =
      some ⟨d, dNameAt d rows, dAmountAt d rows, dDateAt d rows⟩ := by
  induction ks with
  | nil => simp at h
  | cons x xs ih =>
    rw [List.map_cons]
    by_cases hx : x = d
    · rw [hx, List.find?_cons_of_pos _ (by simp)]
    · rw [List.find?_cons_of_neg _ (by simp [hx])]
      exact ih (List.mem_of_ne_of_mem (fun hdx => hx hdx.symm) h)

theorem dFindRow_dGroupAgg_of_mem (rows : List DRow) (d : String) (h : d ∈ dKeys rows) :
    dFindRow d (dGroupAgg rows) =
      some ⟨d, dNameAt d rows, dAmountAt d rows, dDateAt d rows⟩ := by
  rw [dFindRow, dGroupAgg]
  exact dFind?_map_groupRow rows d (firstOccs (dKeys rows)) ((mem_firstOccs _ _).mpr h)

theorem dFindRow_dGroupAgg_of_not_mem (rows : List DRow) (d : String) (h : ¬ d ∈ dKeys rows) :
    dFindRow d (dGroupAgg rows) = none := by
  rw [dFindRow, dGroupAgg, List.find?_eq_none]
  intro x hx
  rcases List.mem_map.mp hx with ⟨k, hk, rfl⟩
  intro hbeq
  exact h ((eq_of_beq hbeq) ▸ (mem_firstOccs _ _).mp hk)

theorem head?_rowsFor_of_find? (rows : List Row) (d : String) (r : Row)
    (h : rows.find? (fun y : Row => y.donorId == d) = some r) :
    (rowsFor d rows).head? = some r := by
  induction rows with
  | nil => exact Option.noConfusion h
  | cons x xs ih =>
    by_cases hx : (x.donorId == d) = true
    · rw [List.find?_cons_of_pos (p := fun y : Row => y.donorId == d) _ hx] at h
      rw [rowsFor, List.filter_cons_of_pos (p := fun y : Row => y.donorId == d) hx,
        List.head?_cons]
      exact h
    · rw [List.find?_cons_of_neg (p := fun y : Row => y.donorId == d) _ hx] at h
      rw [rowsFor, List.filter_cons_of_neg (p := fun y : Row => y.donorId == d) hx]
      exact ih h

theorem foldl_union_error (e : PipeError) (fs : List CsvFile) :
    fs.foldl (fun acc g => acc.bind (fun c => sparkUnion c g)) (Except.error e) =
      Except.error e := by
  induction fs with
  | nil => rfl
  | cons g gs ih => exact ih

theorem foldl_union_ok_iff (c : CsvFile) (fs : List CsvFile) :
    isOk (fs.foldl (fun acc g => acc.bind (fun x => sparkUnion x g)) (Except.ok c)) = true ↔
      ∀ g ∈ fs, g.header.length = c.header.length := by
  induction fs generalizing c with
  | nil => simp [isOk]
  | cons g gs ih =>
    rw [List.foldl_cons]
    by_cases hg : c.header.length = g.header.length
    · have hstep : (Except.ok c).bind (fun x => sparkUnion x g) =
          Except.ok (⟨c.header, c.rows ++ g.rows⟩ : CsvFile) := by
        show sparkUnion c g = _
        rw [sparkUnion, if_pos hg]
      rw [hstep, ih]
      constructor
      · intro h g' hg'
        rcases List.mem_cons.mp hg' with hh | hmem
        · rw [hh]; exact hg.symm
        · exact h g' hmem
      · intro h g' hmem
        exact h g' (List.mem_cons_of_mem _ hmem)
    · have hstep : (Except.ok c).bind (fun x => sparkUnion x g) =
          Except.error PipeError.analysisException := by
        show sparkUnion c g = _
        rw [sparkUnion, if_neg hg]
      rw [hstep, foldl_union_error]
      constructor
      · intro h
        exact Bool.noConfusion h
      · intro h
        exact absurd (h g (List.mem_cons_self g gs)).symm hg

/-- C1: evaluation at the failing input. Merging an incoming batch where
donor D1 has Amount 0.2 into an existing table where D1 has LifetimeAmount
0.1 — both stored as the binary64 doubles inferSchema gives fractional
amounts — stores the rounded double sum fl(0.1 + 0.2) =
5404319552844596 * 2^-54 = 0.30000000000000004, which is NOT the
decimal-exact 0.3 = 3/10 that the claim and the spec require. -/
theorem merged_double_amount_not_exact :
    dMergeData [⟨r"D1", r"New", ofDecimal 2 1, some 20240102⟩]
        (some [⟨r"D1", r"Old", ofDecimal 1 1, some 20240101⟩]) =
      [⟨r"D1", r"Old", ⟨5404319552844596, -54⟩, some 20240102⟩] ∧
      fpEqDecimal ⟨5404319552844596, -54⟩ 3 1 = false := by
  decide

/-- C2: a donor present in both sides gets the later (max) of the two
LastDonation dates; a donor present in only one side keeps that side's
whole aggregate row unchanged; and the merged key set is exactly the union
of the two sides' donor key sets. -/
theorem merged_dates_and_key_union (ex nw : List Row)
    (hex : (keys ex).Nodup) (hnw : (keys nw).Nodup) :
    (∀ d e n de dn, findRow d ex = some e → findRow d nw = some n →
        e.date = some de → n.date = some dn →
        ∃ m, findRow d (mergeData nw (some ex)) = some m ∧
          m.date = some (max de dn)) ∧
    (∀ d e, findRow d ex = some e → findRow d nw = none →
        findRow d (mergeData nw (some ex)) = some e) ∧
    (∀ d n, findRow d ex = none → findRow d nw = some n →
        findRow d (mergeData nw (some ex)) = some n) ∧
    (∀ d, hasKey d (mergeData nw (some ex)) ↔ hasKey d ex ∨ hasKey d nw) := by
  refine ⟨?_, ?_, ?_, ?_⟩
  · intro d e n de dn he hn hde hdn
    refine ⟨_, merge_fields_both ex nw d e n hex hnw he hn, ?_⟩
    rw [show (⟨d, e.name, e.amount + n.amount, omax e.date n.date⟩ : Row).date =
      omax e.date n.date from rfl, hde, hdn]
    rfl
  · intro d e he hn
    exact merge_fields_left_only ex nw d e hex he hn
  · intro d n he hn
    exact merge_fields_right_only ex nw d n hnw he hn
  · intro d
    exact hasKey_merge ex nw d

theorem merged_dates_and_key_union_witness :
    ∃ m, findRow dD1 (mergeData [⟨r"D1", r"B", 5, some 20240201⟩]
        (some [⟨r"D1", r"A", 10, some 20240101⟩])) = some m ∧
      m.date = some (max 20240101 20240201) :=
  (merged_dates_and_key_union [⟨r"D1", r"A", 10, some 20240101⟩]
      [⟨r"D1", r"B", 5, some 20240201⟩] (by decide) (by decide)).1 dD1
    ⟨r"D1", r"A", 10, some 20240101⟩ ⟨r"D1", r"B", 5, some 20240201⟩
    20240101 20240201 (by decide) (by decide) rfl rfl

/-- C3: evaluation at the failing input. Merging an incoming batch where
donor D1 is named "New" into an existing table where D1 is named "Old"
keeps the EXISTING name "Old": existing.union(new) lists the existing rows
first, so first("Name") picks the existing table's Name — contradicting
the claim (and the code's own comment "Use name from new data"), while
amount and date are merged as specified. -/
theorem merge_keeps_existing_name_eval :
    mergeData [⟨r"D1", r"New", 20, some 20240102⟩]
        (some [⟨r"D1", r"Old", 50, some 20240101⟩]) =
      [⟨r"D1", r"Old", 70, some 20240102⟩] := by
  decide

/-- C4: merging with an absent existing table is the identity on the
incoming aggregate mapping: every donor's Name, LifetimeAmount and
LastDonation are returned unchanged. -/
theorem merge_with_none_is_identity (agg : List Row) : mergeData agg none = agg :=
  rfl

/-- C5 counterexample: permuting a donor's rows changes the aggregated
LifetimeAmount the code computes. Summing the doubles 0.1, 0.2, 0.3 in
row order stores 5404319552844596 * 2^-53 = 0.6000000000000001, while the
reversed order stores 5404319552844595 * 2^-53 = 0.6 — one ulp apart —
refuting the claimed order-invariance of the per-donor sum. -/
theorem aggregate_double_sum_order_dependent :
    (dFindRow dD1 (dGroupAgg [⟨r"D1", r"Alice", ofDecimal 1 1, some 20240101⟩,
          ⟨r"D1", r"Alice", ofDecimal 2 1, some 20240102⟩,
          ⟨r"D1", r"Alice", ofDecimal 3 1, some 20240103⟩])).map (fun r => r.amount) =
        some ⟨5404319552844596, -53⟩ ∧
      (dFindRow dD1 (dGroupAgg [⟨r"D1", r"Alice", ofDecimal 3 1, some 20240103⟩,
          ⟨r"D1", r"Alice", ofDecimal 2 1, some 20240102⟩,
          ⟨r"D1", r"Alice", ofDecimal 1 1, some 20240101⟩])).map (fun r => r.amount) =
        some ⟨5404319552844595, -53⟩ ∧
      fpValEq ⟨5404319552844596, -53⟩ ⟨5404319552844595, -53⟩ = false := by
  decide

/-- C5 (amended): per donor, the aggregated LastDonation (the max of the
donor's Dates) is invariant under any permutation of the input record
set; the aggregated LifetimeAmount is not, since the binary64 sums the
code computes depend on row order (see the order-dependence evaluation). -/
theorem aggregate_max_perm_invariant (rows rows' : List DRow)
    (hp : rows.Perm rows') (d : String) :
    (dFindRow d (dGroupAgg rows)).map (fun r => r.date) =
      (dFindRow d (dGroupAgg rows')).map (fun r => r.date) := by
  by_cases h : d ∈ dKeys rows
  · have h' : d ∈ dKeys rows' := ((hp.map (fun r => r.donorId)).mem_iff).mp h
    rw [dFindRow_dGroupAgg_of_mem _ _ h, dFindRow_dGroupAgg_of_mem _ _ h']
    exact congrArg some (dDateAt_perm rows rows' hp d)
  · have h' : ¬ d ∈ dKeys rows' := fun hc => h (((hp.map (fun r => r.donorId)).mem_iff).mpr hc)
    rw [dFindRow_dGroupAgg_of_not_mem _ _ h, dFindRow_dGroupAgg_of_not_mem _ _ h']

theorem aggregate_max_perm_invariant_witness :
    (dFindRow dD1 (dGroupAgg [⟨r"D1", r"Alice", ofDecimal 1 1, some 20240102⟩,
          ⟨r"D1", r"Ann", ofDecimal 2 1, some 20240304⟩])).map (fun r => r.date) =
      (dFindRow dD1 (dGroupAgg [⟨r"D1", r"Ann", ofDecimal 2 1, some 20240304⟩,
          ⟨r"D1", r"Alice", ofDecimal 1 1, some 20240102⟩])).map (fun r => r.date) :=
  aggregate_max_perm_invariant _ _ (List.Perm.swap _ _ _) dD1

/-- C6: the Name the aggregation assigns a donor is the Name carried by
that donor's first row in the record set's original order. -/
theorem aggregate_name_is_first_row (rows : List Row) (d : String) (r : Row)
    (h : rows.find? (fun y : Row => y.donorId == d) = some r) :
    ∃ m, findRow d (groupAgg rows) = some m ∧ m.name = r.name := by
  have hmem : d ∈ keys rows := by
    have hp := List.find?_some (p := fun y : Row => y.donorId == d) h
    exact List.mem_map.mpr ⟨r, List.mem_of_find?_eq_some h, eq_of_beq hp⟩
  refine ⟨_, findRow_groupAgg_of_mem _ _ hmem, ?_⟩
  have hh := head?_rowsFor_of_find? rows d r h
  show nameAt d rows = r.name
  rw [nameAt, List.headD_eq_head?_getD, List.head?_map, hh]
  rfl

theorem aggregate_name_is_first_row_witness :
    ∃ m, findRow dD1 (groupAgg [⟨r"D1", r"Alice", 50, some 20240102⟩,
        ⟨r"D1", r"Ann", 25, some 20240304⟩]) = some m ∧ m.name = r"Alice" :=
  aggregate_name_is_first_row
    [⟨r"D1", r"Alice", 50, some 20240102⟩, ⟨r"D1", r"Ann", 25, some 20240304⟩]
    dD1 ⟨r"D1", r"Alice", 50, some 20240102⟩ (by decide)

/-- C7 counterexample: on an input whose Date text "2024-01-05" does not
conform to M/d/yyyy, the run does NOT fail: to_date yields NULL, the row
is kept with a NULL LastDonation, and a snapshot is written. -/
theorem bad_date_run_still_succeeds :
    processFiles [⟨[r"DonorID", r"Name", r"Amount", r"Date"],
        [⟨r"D1", r"Alice", 50, r"2024-01-05"⟩]⟩] none =
      Except.ok [⟨r"D1", r"Alice", 50, none⟩] := by
  rfl

/-- C7 amended: date parsing never aborts the run: process_files succeeds
exactly when reading and combining the CSV files succeeds, whatever the
Date texts contain; a non-conforming Date is silently parsed to NULL. -/
theorem run_ok_iff_read_ok (files : List CsvFile) (store : Option (List Row)) :
    isOk (processFiles files store) = isOk (readCsvFiles files) := by
  rw [processFiles]
  cases readCsvFiles files <;> rfl

/-- C8: with zero CSV files in the input directory the run fails with the
no-input error (FileNotFoundError) and the store state is untouched:
absent stays absent, prior contents stay prior contents. -/
theorem empty_input_fails_store_unchanged (store : Option (List Row)) :
    processFiles [] store = Except.error PipeError.fileNotFound ∧
      runStore [] store = store :=
  ⟨rfl, rfl⟩

/-- C9: store round-trip: after write(T) a read returns some T — every row
and all four column values exactly — and reading an absent store returns
none rather than an error. -/
theorem store_roundtrip (t : List Row) (store : Option (List Row)) :
    readExistingTable (saveData t store) = some t ∧
      readExistingTable none = (none : Option (List Row)) :=
  ⟨rfl, rfl⟩

/-- C10 counterexample: two files with the same column count but different
column names/order are combined WITHOUT any error — union is positional —
silently misaligning the columns (the second file's Date text lands in the
Name column). -/
theorem reordered_schema_union_no_error :
    isOk (readCsvFiles [⟨[r"DonorID", r"Name", r"Amount", r"Date"],
        [⟨r"D1", r"Alice", 50, r"1/2/2024"⟩]⟩,
      ⟨[r"DonorID", r"Date", r"Amount", r"Name"],
        [⟨r"D2", r"1/3/2024", 10, r"Bob"⟩]⟩]) = true := by
  decide

/-- C10 amended: combining the input files fails — with Spark's union
AnalysisException, not a schema comparison — exactly when some file's
column COUNT differs from the first file's; files with equal column counts
but different column names or order are combined silently by position. -/
theorem union_ok_iff_same_arity (f : CsvFile) (fs : List CsvFile) :
    isOk (readCsvFiles (f :: fs)) = true ↔
      ∀ g ∈ fs, g.header.length = f.header.length :=
  foldl_union_ok_iff f fs

theorem union_ok_iff_same_arity_witness :
    isOk (readCsvFiles [⟨[r"DonorID", r"Name", r"Amount", r"Date"],
        ([] : List RawRow)⟩]) = true ↔
      ∀ g ∈ ([] : List CsvFile), g.header.length =
        (⟨[r"DonorID", r"Name", r"Amount", r"Date"], ([] : List RawRow)⟩ : CsvFile).header.length :=
  union_ok_iff_same_arity ⟨[r"DonorID", r"Name", r"Amount", r"Date"], []⟩ []

end DonationSync
